import Mathlib

/-!
Verification of the QuickNotes sticky-notes board (ui.js and main.js).

The repository contains two revisions of `ui.js` (both present in the source
tree) and the bootstrap file `main.js`.  The two revisions agree on the drag,
delete and image handlers but differ in three places:

* the sort comparator: the first revision reads `new Date(a.createdAt).getTime()`
  with no fallback (a missing field yields `NaN`), the second reads
  `new Date(a.timestamp || 0).getTime()` (a falsy field falls back to time 0);
* after sorting, the first revision repositions the notes into a fixed vertical
  stack (`startX = 20`, `offsetY = 20`, `spacingY = 160`); the second only
  re-renders in sorted order without touching positions;
* `renderTimestamp`: the first revision checks `isNaN(date.getTime())`, warns
  and returns on an invalid date; the second formats unconditionally, so an
  invalid date renders as the string "Invalid Date ...".

Definitions suffixed `V1` embed the first revision, `V2` the second.
JavaScript time values are modelled as `Int` (milliseconds), pixel coordinates
as `Int`, and `Array.prototype.sort` as a stable sort with the ECMAScript
`SortCompare` rule that a `NaN` comparator result counts as `+0`.
-/

namespace QuickNotes

/-- Creation-time field of a note as stored in JavaScript: `missing` covers a
falsy field (absent or the empty string, which also fails to parse),
`invalid` a truthy string that does not parse to a date, and `valid t` a
string parsing to time value `t` (milliseconds since the epoch). -/
inductive TsField
  | missing
  | invalid
  | valid (t : Int)
deriving DecidableEq

/-- Time value `new Date(field).getTime()`: `none` models `NaN`. -/
def TsField.timeValue : TsField → Option Int
  | .missing => none
  | .invalid => none
  | .valid t => some t

/-- Whether the field parses to a valid date. -/
def TsField.isValid : TsField → Bool
  | .valid _ => true
  | _ => false

/-- Whether the field parses to a valid date with positive time value. -/
def TsField.isPosValid : TsField → Bool
  | .valid t => decide (0 < t)
  | _ => false

/-- In-memory note: id, text content, board-relative position, creation-time
field and image payload (a data URL, empty when absent).  The second revision
names the creation-time field `timestamp`; it is the same datum. -/
structure Note where
  id : Nat
  content : String
  x : Int
  y : Int
  createdAt : TsField
  imageData : String
deriving DecidableEq

/-- Modelled from the spec: `Note.updatePosition(x, y)` (notes.js, not in the
source tree) replaces the note position, with no re-clamping (spec section 4.1). -/
def Note.updatePosition (n : Note) (x y : Int) : Note :=
  { n with x := x, y := y }

/-- Sort order argument of `sortNotesByTimestamp`. -/
inductive SortOrder
  | asc
  | desc
deriving DecidableEq

/-- Comparator body of the first revision (`ui.js` lines 247-250):
`dateA - dateB` for ascending and `dateB - dateA` for descending, where
`dateA = new Date(a.createdAt).getTime()`.  If either field fails to parse the
subtraction is `NaN`, modelled as `none`. -/
def compareV1 (order : SortOrder) (a b : Note) : Option Int :=
  match a.createdAt.timeValue, b.createdAt.timeValue with
  | some x, some y =>
    some (match order with
          | .asc => x - y
          | .desc => y - x)
  | _, _ => none

/-- Key of the second revision's comparator (`ui.js` lines 609-610):
`new Date(a.timestamp || 0).getTime()`.  A falsy field falls back to time 0;
a truthy unparsable string still yields `NaN`. -/
def keyV2 : TsField → Option Int
  | .missing => some 0
  | .invalid => none
  | .valid t => some t

/-- Comparator body of the second revision (`ui.js` lines 608-612). -/
def compareV2 (order : SortOrder) (a b : Note) : Option Int :=
  match keyV2 a.createdAt, keyV2 b.createdAt with
  | some x, some y =>
    some (match order with
          | .asc => x - y
          | .desc => y - x)
  | _, _ => none

/-- ECMAScript `SortCompare`: a `NaN` comparator result is treated as `+0`, and
`a` need not come after `b` exactly when the comparator result is `≤ 0`. -/
def sortLE (c : Note → Note → Option Int) (a b : Note) : Prop :=
  (c a b).getD 0 ≤ 0

instance (c : Note → Note → Option Int) : DecidableRel (sortLE c) := fun a b =>
  inferInstanceAs (Decidable ((c a b).getD 0 ≤ 0))

/-- `Array.prototype.sort(comparator)`: for a consistent comparator ECMAScript
specifies the stable order sorted by the comparator, which a stable insertion
sort produces; for an inconsistent comparator (possible here through `NaN`
results) the order is implementation-defined and the same stable algorithm is
taken as the model. -/
def jsArraySort (c : Note → Note → Option Int) (ns : List Note) : List Note :=
  List.insertionSort (sortLE c) ns

/-- The sorted note sequence produced by `notes.sort(...)` in the first
revision (`ui.js` lines 244-251). -/
def sortedNotesV1 (order : SortOrder) (ns : List Note) : List Note :=
  jsArraySort (compareV1 order) ns

/-- The sorted note sequence produced by `notes.sort(...)` in the second
revision (`ui.js` lines 603-612). -/
def sortedNotesV2 (order : SortOrder) (ns : List Note) : List Note :=
  jsArraySort (compareV2 order) ns

/-- Repositioning loop of the first revision (`ui.js` lines 256-274):
`startX = 20`, `spacingY = 160`, accumulator `offsetY` starting at 20;
each note gets `updatePosition(startX, offsetY)` and `offsetY += spacingY`. -/
def stackNotes (offsetY : Int) : List Note → List Note
  | [] => []
  | n :: l => n.updatePosition 20 offsetY :: stackNotes (offsetY + 160) l

/-- `sortNotesByTimestamp` of the first revision (`ui.js` lines 244-275):
sort, then reposition into the vertical stack. -/
def sortNotesByTimestampV1 (order : SortOrder) (ns : List Note) : List Note :=
  stackNotes 20 (sortedNotesV1 order ns)

/-- `sortNotesByTimestamp` of the second revision (`ui.js` lines 603-623):
sort and re-render; positions are not touched. -/
def sortNotesByTimestampV2 (order : SortOrder) (ns : List Note) : List Note :=
  sortedNotesV2 order ns

/-- Bounding rectangle as returned by `getBoundingClientRect` (pixel values
modelled as integers). -/
structure Rect where
  left : Int
  top : Int
  width : Int
  height : Int
deriving DecidableEq

/-- Per-note drag state captured by the closure in `setupNoteEventListeners`. -/
structure DragState where
  isDragging : Bool
  dragOffsetX : Int
  dragOffsetY : Int
deriving DecidableEq

/-- Mouse-move handler (`ui.js` lines 149-162, identical at lines 484-501):
returns the `(x, y)` passed to `updatePosition`, or `none` when the handler
returns early because no drag is active.  `noteW`/`noteH` are the dragged
element's `offsetWidth`/`offsetHeight`. -/
def onMouseMove (st : DragState) (clientX clientY : Int) (board : Rect)
    (noteW noteH : Int) : Option (Int × Int) :=
  if st.isDragging then
    let newX := max 0 (min (clientX - board.left - st.dragOffsetX) (board.width - noteW))
    let newY := max 0 (min (clientY - board.top - st.dragOffsetY) (board.height - noteH))
    some (newX, newY)
  else
    none

/-- Effect of one mouse-move event on the note itself. -/
def mouseMoveStep (st : DragState) (clientX clientY : Int) (board : Rect)
    (noteW noteH : Int) (n : Note) : Note :=
  match onMouseMove st clientX clientY board noteW noteH with
  | none => n
  | some (x, y) => n.updatePosition x y

/-- Primitive UI effects performed by the delete choreography. -/
inductive UIEffect
  | addFadeClass (id : Nat)
  | removeElement (id : Nat)
  | removeFromManager (id : Nat)
deriving DecidableEq

/-- The two phases of `deleteNote` (`ui.js` lines 175-181, identical at lines
518-530): the click handler only adds the fade-out class and registers an
`animationend` listener; that listener removes the DOM element and then calls
`noteManager.removeNote(note.id)`. -/
structure DeleteScript where
  onClick : List UIEffect
  onAnimationEnd : List UIEffect

/-- `deleteNote` as an effect script. -/
def deleteNote (id : Nat) : DeleteScript :=
  { onClick := [.addFadeClass id],
    onAnimationEnd := [.removeElement id, .removeFromManager id] }

/-- Observable board state: ids in the manager collection, ids with a DOM
element on the board, ids currently fading out. -/
structure BoardState where
  managerIds : List Nat
  domIds : List Nat
  fadingIds : List Nat
deriving DecidableEq

/-- Modelled from the spec: `NoteManager.removeNote(id)` (notes.js, not in the
source tree) removes the note if present, a no-op otherwise (spec section 4.2). -/
def removeNoteId (ids : List Nat) (id : Nat) : List Nat :=
  ids.filter (fun i => i ≠ id)

/-- Interpretation of one UI effect on the board state. -/
def applyEffect (s : BoardState) : UIEffect → BoardState
  | .addFadeClass id => { s with fadingIds := id :: s.fadingIds }
  | .removeElement id => { s with domIds := removeNoteId s.domIds id }
  | .removeFromManager id => { s with managerIds := removeNoteId s.managerIds id }

/-- Interpretation of an effect list, in order. -/
def applyEffects (s : BoardState) (es : List UIEffect) : BoardState :=
  es.foldl applyEffect s

/-- What the timestamp element may display. -/
inductive TsText
  | formatted (t : Int)
  | invalidDateText
deriving DecidableEq

/-- Result of `renderTimestamp`: whether `console.warn` ran, and the text
written to the timestamp element (`none` when display is skipped).
`TsText.formatted t` stands for the locale rendering of the valid date with
time value `t`; `TsText.invalidDateText` for the "Invalid Date" strings an
invalid date formats to. -/
structure RenderResult where
  warned : Bool
  text : Option TsText
deriving DecidableEq

/-- `renderTimestamp`, first revision (`ui.js` lines 218-239): when
`isNaN(date.getTime())` it warns and returns without writing any text. -/
def renderTimestampV1 (ts : TsField) : RenderResult :=
  match ts.timeValue with
  | none => { warned := true, text := none }
  | some t => { warned := false, text := some (.formatted t) }

/-- `renderTimestamp`, second revision (`ui.js` lines 579-596): no validity
check, the formatted string is always written. -/
def renderTimestampV2 (ts : TsField) : RenderResult :=
  match ts.timeValue with
  | none => { warned := false, text := some .invalidDateText }
  | some t => { warned := false, text := some (.formatted t) }

/-- A file as seen by the change handler: its MIME type (`file.type`) and the
data URL `FileReader.readAsDataURL` would produce for it. -/
structure JsFile where
  type : String
  dataUrl : String
deriving DecidableEq

/-- JavaScript `s.startsWith(pre)`, expressed on the character lists of the
strings so that it evaluates by kernel reduction. -/
def jsStartsWith (s pre : String) : Bool :=
  pre.toList.isPrefixOf s.toList

/-- Image-input change handler (`ui.js` lines 122-134, identical at lines
435-454): reads `files[0]`; only when a file is present and its type starts
with "image/" is the note's `imageData` overwritten with the data URL.  The
returned flag records whether any error was surfaced (the handler has no error
path, so it is always `false`). -/
def onImageInputChange (files : List JsFile) (note : Note) : Note × Bool :=
  match files.head? with
  | some file =>
    if jsStartsWith file.type "image/" then
      ({ note with imageData := file.dataUrl }, false)
    else
      (note, false)
  | none => (note, false)

/-- Persisted note record handled by the bootstrap (`main.js`); the
creation-time field is named `timestamp` there. -/
structure NoteRecord where
  id : Nat
  content : String
  x : Int
  y : Int
  timestamp : TsField
  imageData : String
deriving DecidableEq

/-- Backfill step of the bootstrap (`main.js` lines 24-27):
`if (!noteData.timestamp) noteData.timestamp = new Date().toISOString()`.
The JavaScript test is falsiness, so only a falsy field is replaced; a
present-but-unparsable string is kept.  `now` is the current time value. -/
def backfillTimestamp (now : Int) (r : NoteRecord) : NoteRecord :=
  match r.timestamp with
  | .missing => { r with timestamp := .valid now }
  | _ => r

/-- Modelled from the spec: the `Note` constructor (notes.js, not in the
source tree) carries every record field into the note (spec sections 3 and 6). -/
def noteOfRecord (r : NoteRecord) : Note :=
  { id := r.id, content := r.content, x := r.x, y := r.y,
    createdAt := r.timestamp, imageData := r.imageData }

/-- Bootstrap load (`main.js` lines 20-33): every saved record is backfilled,
turned into a `Note` and added to the fresh manager. -/
def bootstrapLoad (now : Int) (saved : List NoteRecord) : List Note :=
  saved.map (fun r => noteOfRecord (backfillTimestamp now r))

/-- Time value a note sorts by in the first revision, defaulted to 0; it
agrees with the comparator whenever the field is valid. -/
def noteTimeKey (n : Note) : Int :=
  n.createdAt.timeValue.getD 0

/-- Time value a note sorts by in the second revision, defaulted to 0; it
agrees with the comparator whenever `keyV2` is not `NaN`. -/
def noteKeyV2 (n : Note) : Int :=
  (keyV2 n.createdAt).getD 0

end QuickNotes

namespace QuickNotes

section SortingLemmas

variable {α : Type}

/-- Relations that agree on an element and a list insert that element at the
same place. -/
theorem orderedInsert_congr (r s : α → α → Prop) [DecidableRel r] [DecidableRel s]
    (a : α) (l : List α) (h : ∀ b ∈ l, (r a b ↔ s a b)) :
    List.orderedInsert r a l = List.orderedInsert s a l := by
  induction l with
  | nil => rfl
  | cons b l ih =>
    have hb := h b (List.mem_cons_self b l)
    by_cases hr : r a b
    · rw [List.orderedInsert, List.orderedInsert, if_pos hr, if_pos (hb.mp hr)]
    · rw [List.orderedInsert, List.orderedInsert, if_neg hr,
        if_neg (fun hs => hr (hb.mpr hs)),
        ih (fun c hc => h c (List.mem_cons_of_mem b hc))]

/-- Relations that agree on the elements of a list sort it identically. -/
theorem insertionSort_congr (r s : α → α → Prop) [DecidableRel r] [DecidableRel s]
    (l : List α) (h : ∀ a ∈ l, ∀ b ∈ l, (r a b ↔ s a b)) :
    List.insertionSort r l = List.insertionSort s l := by
  induction l with
  | nil => rfl
  | cons a l ih =>
    show List.orderedInsert r a (List.insertionSort r l)
        = List.orderedInsert s a (List.insertionSort s l)
    rw [ih (fun x hx y hy =>
      h x (List.mem_cons_of_mem a hx) y (List.mem_cons_of_mem a hy))]
    exact orderedInsert_congr r s a _ (fun b hb =>
      h a (List.mem_cons_self a l) b
        (List.mem_cons_of_mem a ((List.mem_insertionSort s).mp hb)))

/-- Insertion sort yields a list sorted by any total transitive relation. -/
theorem sorted_insertionSort_of (r : α → α → Prop) [DecidableRel r]
    (htot : ∀ a b, r a b ∨ r b a)
    (htrans : ∀ a b c, r a b → r b c → r a c) (l : List α) :
    List.Sorted r (List.insertionSort r l) := by
  haveI : IsTotal α r := ⟨htot⟩
  haveI : IsTrans α r := ⟨htrans⟩
  exact List.sorted_insertionSort r l

/-- A list sorted by a key starts with an element whose key is strictly below
every other element's key. -/
theorem head_eq_of_unique_min (k : α → Int) (m : α) (l : List α)
    (hsorted : List.Pairwise (fun a b => k a ≤ k b) l) (hm : m ∈ l)
    (hmin : ∀ b ∈ l, b ≠ m → k m < k b) :
    l.head? = some m := by
  cases l with
  | nil => cases hm
  | cons b rest =>
    by_cases hb : b = m
    · rw [hb]; rfl
    · exfalso
      have hmrest : m ∈ rest := by
        rcases List.mem_cons.mp hm with h | h
        · exact absurd h.symm hb
        · exact h
      have h1 : k b ≤ k m := (List.pairwise_cons.mp hsorted).1 m hmrest
      have h2 : k m < k b := hmin b (List.mem_cons_self b rest) hb
      omega

/-- When two relations coincide on a list with the orderings by a key and by
its opposite, and the keys are pairwise distinct, sorting by the first is the
reverse of sorting by the second. -/
theorem insertionSort_asc_eq_reverse_desc (k : α → Int)
    (leA leD : α → α → Prop) [DecidableRel leA] [DecidableRel leD] (l : List α)
    (hA : ∀ a ∈ l, ∀ b ∈ l, (leA a b ↔ k a ≤ k b))
    (hD : ∀ a ∈ l, ∀ b ∈ l, (leD a b ↔ k b ≤ k a))
    (hdist : l.Pairwise (fun a b => k a ≠ k b)) :
    List.insertionSort leA l = (List.insertionSort leD l).reverse := by
  rw [insertionSort_congr leA (fun a b => k a ≤ k b) l hA,
    insertionSort_congr leD (fun a b => k b ≤ k a) l hD]
  have pA : (List.insertionSort (fun a b => k a ≤ k b) l).Perm l :=
    List.perm_insertionSort _ l
  have pD : (List.insertionSort (fun a b => k b ≤ k a) l).Perm l :=
    List.perm_insertionSort _ l
  have hsA : List.Pairwise (fun a b => k a ≤ k b)
      (List.insertionSort (fun a b => k a ≤ k b) l) :=
    sorted_insertionSort_of _ (fun a b => Int.le_total (k a) (k b))
      (fun a b c hab hbc => Int.le_trans hab hbc) l
  have hsD : List.Pairwise (fun a b => k b ≤ k a)
      (List.insertionSort (fun a b => k b ≤ k a) l) :=
    sorted_insertionSort_of _ (fun a b => Int.le_total (k b) (k a))
      (fun a b c hab hbc => Int.le_trans hbc hab) l
  have hdA : (List.insertionSort (fun a b => k a ≤ k b) l).Pairwise
      (fun a b => k a ≠ k b) :=
    (List.Perm.pairwise_iff (fun h => Ne.symm h) pA).mpr hdist
  have hdD : (List.insertionSort (fun a b => k b ≤ k a) l).Pairwise
      (fun a b => k a ≠ k b) :=
    (List.Perm.pairwise_iff (fun h => Ne.symm h) pD).mpr hdist
  have hltA : (List.insertionSort (fun a b => k a ≤ k b) l).Pairwise
      (fun a b => k a < k b) :=
    (hsA.and hdA).imp (fun h => lt_of_le_of_ne h.1 h.2)
  have hltD : ((List.insertionSort (fun a b => k b ≤ k a) l).reverse).Pairwise
      (fun a b => k a < k b) := by
    rw [List.pairwise_reverse]
    exact (hsD.and hdD).imp (fun h => lt_of_le_of_ne h.1 (Ne.symm h.2))
  have hperm : (List.insertionSort (fun a b => k a ≤ k b) l).Perm
      (List.insertionSort (fun a b => k b ≤ k a) l).reverse :=
    pA.trans (pD.symm.trans (List.reverse_perm _).symm)
  haveI : IsAntisymm α (fun a b => k a < k b) :=
    ⟨fun a b h1 h2 => absurd h2 (by omega)⟩
  exact List.eq_of_perm_of_sorted hperm hltA hltD

end SortingLemmas

/-- A creation-time field is valid exactly when it is a `valid t`. -/
theorem TsField.isValid_iff (f : TsField) : f.isValid = true ↔ ∃ t, f = .valid t := by
  cases f <;> simp [TsField.isValid]

/-- A creation-time field is positively valid exactly when it is a `valid t`
with `0 < t`. -/
theorem TsField.isPosValid_iff (f : TsField) :
    f.isPosValid = true ↔ ∃ t, f = .valid t ∧ 0 < t := by
  cases f <;> simp [TsField.isPosValid]

/-- Stacking the notes does not change their ids. -/
theorem stackNotes_map_id (offsetY : Int) (l : List Note) :
    (stackNotes offsetY l).map Note.id = l.map Note.id := by
  induction l generalizing offsetY with
  | nil => rfl
  | cons n l ih => simp [stackNotes, Note.updatePosition, ih]

end QuickNotes

namespace QuickNotes

/-- C6: for every set of notes whose `createdAt` timestamps are pairwise
distinct and all valid, the ascending sort is exactly the reverse of the
descending sort of the same notes, in both revisions of
`sortNotesByTimestamp` (the repositioning of the first revision is a separate
step, settled with C4; the sequences compared here are the ones produced by
`notes.sort`). -/
theorem sort_asc_eq_reverse_desc (ns : List Note)
    (hvalid : ∀ n ∈ ns, n.createdAt.isValid = true)
    (hdist : ns.Pairwise (fun a b => a.createdAt ≠ b.createdAt)) :
    sortedNotesV1 SortOrder.asc ns = (sortedNotesV1 SortOrder.desc ns).reverse ∧
    sortedNotesV2 SortOrder.asc ns = (sortedNotesV2 SortOrder.desc ns).reverse := by
  have hval : ∀ n ∈ ns, ∃ t, n.createdAt = .valid t := fun n hn =>
    (TsField.isValid_iff _).mp (hvalid n hn)
  have hdistk : ns.Pairwise (fun a b => noteTimeKey a ≠ noteTimeKey b) := by
    refine hdist.imp_of_mem ?_
    intro a b ha hb hne
    obtain ⟨ta, hta⟩ := hval a ha
    obtain ⟨tb, htb⟩ := hval b hb
    simp only [noteTimeKey, hta, htb, TsField.timeValue, Option.getD_some]
    intro hEq
    exact hne (by rw [hta, htb, hEq])
  constructor
  · show List.insertionSort (sortLE (compareV1 SortOrder.asc)) ns
        = (List.insertionSort (sortLE (compareV1 SortOrder.desc)) ns).reverse
    refine insertionSort_asc_eq_reverse_desc noteTimeKey _ _ ns ?_ ?_ hdistk
    · intro a ha b hb
      obtain ⟨ta, hta⟩ := hval a ha
      obtain ⟨tb, htb⟩ := hval b hb
      simp only [sortLE, compareV1, hta, htb, TsField.timeValue, noteTimeKey,
        Option.getD_some]
      omega
    · intro a ha b hb
      obtain ⟨ta, hta⟩ := hval a ha
      obtain ⟨tb, htb⟩ := hval b hb
      simp only [sortLE, compareV1, hta, htb, TsField.timeValue, noteTimeKey,
        Option.getD_some]
      omega
  · show List.insertionSort (sortLE (compareV2 SortOrder.asc)) ns
        = (List.insertionSort (sortLE (compareV2 SortOrder.desc)) ns).reverse
    refine insertionSort_asc_eq_reverse_desc noteTimeKey _ _ ns ?_ ?_ hdistk
    · intro a ha b hb
      obtain ⟨ta, hta⟩ := hval a ha
      obtain ⟨tb, htb⟩ := hval b hb
      simp only [sortLE, compareV2, hta, htb, keyV2, noteTimeKey,
        TsField.timeValue, Option.getD_some]
      omega
    · intro a ha b hb
      obtain ⟨ta, hta⟩ := hval a ha
      obtain ⟨tb, htb⟩ := hval b hb
      simp only [sortLE, compareV2, hta, htb, keyV2, noteTimeKey,
        TsField.timeValue, Option.getD_some]
      omega

/-- Witness for C6 at two concrete notes with distinct valid timestamps. -/
theorem sort_asc_eq_reverse_desc_witness :
    sortedNotesV1 SortOrder.asc
        [⟨1, "", 0, 0, .valid 5, ""⟩, ⟨2, "", 0, 0, .valid 3, ""⟩]
      = (sortedNotesV1 SortOrder.desc
        [⟨1, "", 0, 0, .valid 5, ""⟩, ⟨2, "", 0, 0, .valid 3, ""⟩]).reverse ∧
    sortedNotesV2 SortOrder.asc
        [⟨1, "", 0, 0, .valid 5, ""⟩, ⟨2, "", 0, 0, .valid 3, ""⟩]
      = (sortedNotesV2 SortOrder.desc
        [⟨1, "", 0, 0, .valid 5, ""⟩, ⟨2, "", 0, 0, .valid 3, ""⟩]).reverse :=
  sort_asc_eq_reverse_desc _ (by decide) (by decide)

end QuickNotes

namespace QuickNotes

/-- C1 counterexample: in the first revision (comparator on `createdAt` with
no fallback, `ui.js` lines 244-251) a missing `createdAt` makes the comparator
return `NaN`, which ECMAScript `SortCompare` treats as `+0`, so the note
compares equal to every other note and keeps its original relative position
instead of being placed earliest.  Concretely, ascending-sorting a note with
time value 5 followed by a note with a missing `createdAt` leaves the missing
note second, while sorting it as if its creation time were 0 would place it
first. -/
theorem sortV1_missing_not_placed_earliest :
    sortedNotesV1 SortOrder.asc
        [⟨1, "", 0, 0, .valid 5, ""⟩, ⟨2, "", 0, 0, .missing, ""⟩]
      = [⟨1, "", 0, 0, .valid 5, ""⟩, ⟨2, "", 0, 0, .missing, ""⟩] ∧
    (sortedNotesV1 SortOrder.asc
        [⟨1, "", 0, 0, .valid 5, ""⟩, ⟨2, "", 0, 0, .missing, ""⟩]).head?
      ≠ some ⟨2, "", 0, 0, .missing, ""⟩ := by decide

/-- C1 (amended): only the second revision of `sortNotesByTimestamp`
(`ui.js` lines 603-612, with the `|| 0` fallback) orders a note with a
missing creation-time field as if its creation time were 0: in a set in which
exactly one note has a missing field and every other note has a valid,
positive creation time, that note comes first in ascending order and last in
descending order.  In the first revision (lines 244-251) the missing field
yields `NaN` comparisons, the note compares equal to everything, and it keeps
its original relative position. -/
theorem sortV2_missing_treated_as_zero (ns : List Note) (m : Note)
    (hm : m ∈ ns) (hmiss : m.createdAt = TsField.missing)
    (hoth : ∀ n ∈ ns, n ≠ m → n.createdAt.isPosValid = true) :
    (sortedNotesV2 SortOrder.asc ns).head? = some m ∧
    (sortedNotesV2 SortOrder.desc ns).getLast? = some m := by
  have hksome : ∀ n ∈ ns, keyV2 n.createdAt = some (noteKeyV2 n) := by
    intro n hn
    by_cases hnm : n = m
    · subst hnm
      simp [noteKeyV2, hmiss, keyV2]
    · obtain ⟨t, ht, _⟩ := (TsField.isPosValid_iff _).mp (hoth n hn hnm)
      simp [noteKeyV2, ht, keyV2]
  have hkm : noteKeyV2 m = 0 := by
    simp [noteKeyV2, hmiss, keyV2]
  have hpos : ∀ n ∈ ns, n ≠ m → 0 < noteKeyV2 n := by
    intro n hn hnm
    obtain ⟨t, ht, htpos⟩ := (TsField.isPosValid_iff _).mp (hoth n hn hnm)
    simpa [noteKeyV2, keyV2, ht] using htpos
  have hA : ∀ a ∈ ns, ∀ b ∈ ns,
      (sortLE (compareV2 SortOrder.asc) a b ↔ noteKeyV2 a ≤ noteKeyV2 b) := by
    intro a ha b hb
    simp only [sortLE, compareV2, hksome a ha, hksome b hb, Option.getD_some]
    omega
  have hD : ∀ a ∈ ns, ∀ b ∈ ns,
      (sortLE (compareV2 SortOrder.desc) a b ↔ noteKeyV2 b ≤ noteKeyV2 a) := by
    intro a ha b hb
    simp only [sortLE, compareV2, hksome a ha, hksome b hb, Option.getD_some]
    omega
  have hcongrA : sortedNotesV2 SortOrder.asc ns
      = List.insertionSort (fun a b => noteKeyV2 a ≤ noteKeyV2 b) ns :=
    insertionSort_congr _ _ ns hA
  have hcongrD : sortedNotesV2 SortOrder.desc ns
      = List.insertionSort (fun a b => noteKeyV2 b ≤ noteKeyV2 a) ns :=
    insertionSort_congr _ _ ns hD
  have pA : (List.insertionSort (fun a b => noteKeyV2 a ≤ noteKeyV2 b) ns).Perm ns :=
    List.perm_insertionSort _ ns
  have pD : (List.insertionSort (fun a b => noteKeyV2 b ≤ noteKeyV2 a) ns).Perm ns :=
    List.perm_insertionSort _ ns
  have hsA : List.Pairwise (fun a b => noteKeyV2 a ≤ noteKeyV2 b)
      (List.insertionSort (fun a b => noteKeyV2 a ≤ noteKeyV2 b) ns) :=
    sorted_insertionSort_of _ (fun a b => Int.le_total (noteKeyV2 a) (noteKeyV2 b))
      (fun a b c hab hbc => Int.le_trans hab hbc) ns
  have hsD : List.Pairwise (fun a b => noteKeyV2 b ≤ noteKeyV2 a)
      (List.insertionSort (fun a b => noteKeyV2 b ≤ noteKeyV2 a) ns) :=
    sorted_insertionSort_of _ (fun a b => Int.le_total (noteKeyV2 b) (noteKeyV2 a))
      (fun a b c hab hbc => Int.le_trans hbc hab) ns
  constructor
  · rw [hcongrA]
    refine head_eq_of_unique_min noteKeyV2 m _ hsA (pA.mem_iff.mpr hm) ?_
    intro b hb hbm
    rw [hkm]
    exact hpos b (pA.mem_iff.mp hb) hbm
  · rw [hcongrD, ← List.head?_reverse]
    refine head_eq_of_unique_min noteKeyV2 m _ ?_ ?_ ?_
    · rw [List.pairwise_reverse]
      exact hsD
    · rw [List.mem_reverse]
      exact pD.mem_iff.mpr hm
    · intro b hb hbm
      rw [hkm]
      exact hpos b (pD.mem_iff.mp (List.mem_reverse.mp hb)) hbm

/-- Witness for the amended C1 at a concrete pair of notes: the note with the
missing field sorts first ascending and last descending in the second
revision. -/
theorem sortV2_missing_treated_as_zero_witness :
    (sortedNotesV2 SortOrder.asc
        [⟨1, "", 0, 0, .valid 5, ""⟩, ⟨2, "", 0, 0, .missing, ""⟩]).head?
      = some ⟨2, "", 0, 0, .missing, ""⟩ ∧
    (sortedNotesV2 SortOrder.desc
        [⟨1, "", 0, 0, .valid 5, ""⟩, ⟨2, "", 0, 0, .missing, ""⟩]).getLast?
      = some ⟨2, "", 0, 0, .missing, ""⟩ :=
  sortV2_missing_treated_as_zero _ _ (by decide) (by decide) (by decide)

end QuickNotes

namespace QuickNotes

/-- Every note stacked starting at `offsetY` sits at `x = 20` and
`y = offsetY + 160 * i`. -/
theorem stackNotes_get (l : List Note) (offsetY : Int) (i : Nat)
    (h : i < (stackNotes offsetY l).length) :
    ((stackNotes offsetY l).get ⟨i, h⟩).x = 20 ∧
    ((stackNotes offsetY l).get ⟨i, h⟩).y = offsetY + 160 * i := by
  induction l generalizing offsetY i with
  | nil => simp [stackNotes] at h
  | cons n l ih =>
    cases i with
    | zero =>
      constructor
      · rfl
      · show offsetY = offsetY + 160 * ((0 : Nat) : Int)
        simp
    | succ j =>
      have h2 : j < (stackNotes (offsetY + 160) l).length := by
        have := h
        simp only [stackNotes, List.length_cons] at this
        omega
      obtain ⟨hx, hy⟩ := ih (offsetY + 160) j h2
      refine ⟨hx, ?_⟩
      rw [show ((stackNotes offsetY (n :: l)).get ⟨j + 1, h⟩)
          = (stackNotes (offsetY + 160) l).get ⟨j, h2⟩ from rfl, hy]
      push_cast
      ring

/-- C4 (amended): after a sort in the first revision (`ui.js` lines 244-275)
every note is repositioned into the fixed vertical stack: the i-th note of the
sorted order sits at `x = 20` and `y = 20 + 160 * i`.  The second revision
(`ui.js` lines 603-623) re-renders in sorted order but does not reposition at
all, so the stacking holds only for the first revision. -/
theorem sortV1_vertical_stack (order : SortOrder) (ns : List Note) (i : Nat)
    (h : i < (sortNotesByTimestampV1 order ns).length) :
    ((sortNotesByTimestampV1 order ns).get ⟨i, h⟩).x = 20 ∧
    ((sortNotesByTimestampV1 order ns).get ⟨i, h⟩).y = 20 + 160 * i :=
  stackNotes_get _ 20 i h

/-- Witness for the amended C4: sorting two concrete notes in the first
revision puts them at `(20, 20)` and `(20, 180)`. -/
theorem sortV1_vertical_stack_witness :
    (((sortNotesByTimestampV1 SortOrder.asc
        [⟨1, "", 55, 77, .valid 5, ""⟩, ⟨2, "", 99, 5, .valid 3, ""⟩]).get
          ⟨1, by decide⟩).x = 20 ∧
     ((sortNotesByTimestampV1 SortOrder.asc
        [⟨1, "", 55, 77, .valid 5, ""⟩, ⟨2, "", 99, 5, .valid 3, ""⟩]).get
          ⟨1, by decide⟩).y = 20 + 160 * 1) :=
  sortV1_vertical_stack SortOrder.asc _ 1 (by decide)

/-- C4 counterexample: the second revision of `sortNotesByTimestamp` leaves
every note at its previous position, so after its sort the notes' x
coordinates need not equal any single horizontal offset: sorting two notes
lying at `x = 55` and `x = 99` keeps those two distinct x values. -/
theorem sortV2_does_not_reposition :
    ¬ ∃ cX : Int, ∀ n ∈ sortNotesByTimestampV2 SortOrder.asc
        [⟨1, "a", 55, 77, .valid 1, ""⟩, ⟨2, "b", 99, 5, .valid 2, ""⟩],
      n.x = cX := by
  rintro ⟨cX, hc⟩
  have h1 : (55 : Int) = cX :=
    hc ⟨1, "a", 55, 77, .valid 1, ""⟩ (by decide)
  have h2 : (99 : Int) = cX :=
    hc ⟨2, "b", 99, 5, .valid 2, ""⟩ (by decide)
  omega

/-- C9: both revisions of `sortNotesByTimestamp` preserve collection
membership: the multiset of note ids after the operation is exactly the one
before — sorting permutes the notes and (in the first revision) moves them,
but never adds or removes one. -/
theorem sort_preserves_note_ids (order : SortOrder) (ns : List Note) :
    ((sortNotesByTimestampV1 order ns).map Note.id).Perm (ns.map Note.id) ∧
    ((sortNotesByTimestampV2 order ns).map Note.id).Perm (ns.map Note.id) := by
  constructor
  · have h1 : (sortNotesByTimestampV1 order ns).map Note.id
        = (sortedNotesV1 order ns).map Note.id := stackNotes_map_id 20 _
    rw [h1]
    exact (List.perm_insertionSort _ ns).map Note.id
  · exact (List.perm_insertionSort _ ns).map Note.id

end QuickNotes

namespace QuickNotes

/-- C2 counterexample: the handler clamps with
`Math.max(0, Math.min(v, boardWidth - noteWidth))`, so when the note is wider
than the board the result is 0, which is strictly greater than
`boardWidth - noteWidth`; the claimed bound `x ≤ boardWidth - noteWidth` fails
on such an event.  Concretely: board 100 wide, note 150 wide, the handler
passes `x = 0` to `updatePosition` while `boardWidth - noteWidth = -50`. -/
theorem mousemove_clamp_violates_bound_wide_note :
    onMouseMove ⟨true, 0, 0⟩ 0 0 ⟨0, 0, 100, 100⟩ 150 10 = some (0, 0) ∧
    ¬ ((0 : Int) ≤ 100 - 150) := by decide

/-- C2 (amended): during an active drag, provided the dragged note fits in the
board (`noteW ≤ boardWidth` and `noteH ≤ boardHeight`), every position the
mouse-move handler passes to `updatePosition` satisfies
`0 ≤ x ≤ boardWidth - noteW` and `0 ≤ y ≤ boardHeight - noteH`. -/
theorem mousemove_clamped_within_bounds (st : DragState) (clientX clientY : Int)
    (board : Rect) (noteW noteH : Int) (x y : Int)
    (hW : noteW ≤ board.width) (hH : noteH ≤ board.height)
    (h : onMouseMove st clientX clientY board noteW noteH = some (x, y)) :
    0 ≤ x ∧ x ≤ board.width - noteW ∧ 0 ≤ y ∧ y ≤ board.height - noteH := by
  unfold onMouseMove at h
  by_cases hd : st.isDragging
  · rw [if_pos hd] at h
    simp only [Option.some.injEq, Prod.mk.injEq] at h
    obtain ⟨hx, hy⟩ := h
    subst hx
    subst hy
    refine ⟨?_, ?_, ?_, ?_⟩ <;> omega
  · rw [if_neg hd] at h
    exact absurd h (by simp)

/-- Witness for the amended C2 at a concrete drag event. -/
theorem mousemove_clamped_within_bounds_witness :
    0 ≤ (30 : Int) ∧ (30 : Int) ≤ 100 - 40 ∧
    (0 : Int) ≤ 0 ∧ (0 : Int) ≤ 100 - 10 :=
  mousemove_clamped_within_bounds ⟨true, 5, 5⟩ 35 (-20) ⟨0, 0, 100, 100⟩
    40 10 30 0 (by decide) (by decide) (by decide)

/-- C10: a mouse-move event delivered while no drag is active on the note
(`isDragging` is false) calls `updatePosition` with nothing — the handler
returns early — and the note's position is unchanged. -/
theorem mousemove_no_drag_no_move (st : DragState) (clientX clientY : Int)
    (board : Rect) (noteW noteH : Int) (n : Note)
    (hd : st.isDragging = false) :
    onMouseMove st clientX clientY board noteW noteH = none ∧
    mouseMoveStep st clientX clientY board noteW noteH n = n := by
  have h1 : onMouseMove st clientX clientY board noteW noteH = none := by
    unfold onMouseMove
    rw [hd]
    rfl
  refine ⟨h1, ?_⟩
  unfold mouseMoveStep
  rw [h1]

/-- Witness for C10 at a concrete idle state. -/
theorem mousemove_no_drag_no_move_witness :
    onMouseMove ⟨false, 3, 4⟩ 50 60 ⟨0, 0, 100, 100⟩ 40 10 = none ∧
    mouseMoveStep ⟨false, 3, 4⟩ 50 60 ⟨0, 0, 100, 100⟩ 40 10
        ⟨1, "c", 7, 8, .valid 5, ""⟩
      = ⟨1, "c", 7, 8, .valid 5, ""⟩ :=
  mousemove_no_drag_no_move ⟨false, 3, 4⟩ 50 60 ⟨0, 0, 100, 100⟩ 40 10
    ⟨1, "c", 7, 8, .valid 5, ""⟩ (by decide)

/-- C3: the delete click never removes the note from the collection or the
board: applying the click handler's effects leaves the manager ids and the
rendered elements untouched (the note is still present at the instant of the
click), the click handler performs no `removeNote` at all, and in the
`animationend` handler the DOM removal strictly precedes the collection
removal. -/
theorem deleteNote_removal_deferred (id : Nat) (s : BoardState) :
    (applyEffects s (deleteNote id).onClick).managerIds = s.managerIds ∧
    (applyEffects s (deleteNote id).onClick).domIds = s.domIds ∧
    (∀ e ∈ (deleteNote id).onClick, ∀ j : Nat, e ≠ UIEffect.removeFromManager j) ∧
    (∃ i j : Nat, i < j ∧
      ((deleteNote id).onAnimationEnd)[i]? = some (UIEffect.removeElement id) ∧
      ((deleteNote id).onAnimationEnd)[j]? = some (UIEffect.removeFromManager id)) := by
  refine ⟨rfl, rfl, ?_, 0, 1, Nat.zero_lt_one, rfl, rfl⟩
  intro e he j
  simp only [deleteNote, List.mem_singleton] at he
  subst he
  exact fun hcontra => UIEffect.noConfusion hcontra

/-- Witness for C3 at a concrete board holding one note. -/
theorem deleteNote_removal_deferred_witness :
    (applyEffects ⟨[7], [7], []⟩ (deleteNote 7).onClick).managerIds = [7] ∧
    (applyEffects ⟨[7], [7], []⟩ (deleteNote 7).onClick).domIds = [7] :=
  ⟨(deleteNote_removal_deferred 7 ⟨[7], [7], []⟩).1,
   (deleteNote_removal_deferred 7 ⟨[7], [7], []⟩).2.1⟩

end QuickNotes

namespace QuickNotes

/-- C5 counterexample: the second revision of `renderTimestamp` (`ui.js`
lines 579-596) has no validity check: on a timestamp that does not parse it
writes the "Invalid Date" formatting into the timestamp element (text IS
produced) and logs nothing, contradicting the claim that the timestamp
display is skipped and the problem logged. -/
theorem renderTimestampV2_shows_invalid_date :
    (renderTimestampV2 TsField.invalid).text ≠ none ∧
    (renderTimestampV2 TsField.invalid).warned = false := by decide

/-- C5 (amended): rendering a timestamp never throws in either revision (both
handlers are total), but only the first revision (`ui.js` lines 218-239) logs
an unparsable timestamp and skips the display; the second revision renders
the "Invalid Date" formatting without logging. -/
theorem renderTimestamp_invalid_handling (ts : TsField)
    (h : ts.timeValue = none) :
    renderTimestampV1 ts = ⟨true, none⟩ ∧
    renderTimestampV2 ts = ⟨false, some TsText.invalidDateText⟩ := by
  unfold renderTimestampV1 renderTimestampV2
  rw [h]
  exact ⟨rfl, rfl⟩

/-- Witness for the amended C5 at an unparsable timestamp. -/
theorem renderTimestamp_invalid_handling_witness :
    renderTimestampV1 TsField.invalid = ⟨true, none⟩ ∧
    renderTimestampV2 TsField.invalid = ⟨false, some TsText.invalidDateText⟩ :=
  renderTimestamp_invalid_handling TsField.invalid (by decide)

/-- C7: the image-input change handler surfaces no error, leaves the note's
`imageData` unchanged whenever the selected file's MIME type does not start
with "image/" (the selection is silently ignored), and `imageData` can only
change when the selected file is image-typed. -/
theorem imageChange_non_image_ignored (files : List JsFile) (note : Note) :
    (∀ f, files.head? = some f → jsStartsWith f.type "image/" = false →
      onImageInputChange files note = (note, false)) ∧
    (onImageInputChange files note).2 = false ∧
    ((onImageInputChange files note).1.imageData ≠ note.imageData →
      ∃ f, files.head? = some f ∧ jsStartsWith f.type "image/" = true) := by
  refine ⟨?_, ?_, ?_⟩
  · intro f hf hty
    unfold onImageInputChange
    rw [hf]
    simp [hty]
  · unfold onImageInputChange
    cases files.head? with
    | none => rfl
    | some f =>
      cases hty : jsStartsWith f.type "image/" <;> simp [hty]
  · intro hchange
    unfold onImageInputChange at hchange
    cases hf : files.head? with
    | none =>
      rw [hf] at hchange
      exact absurd rfl hchange
    | some f =>
      rw [hf] at hchange
      cases hty : jsStartsWith f.type "image/"
      · simp [hty] at hchange
      · exact ⟨f, rfl, hty⟩

/-- Witness for C7: selecting a text file leaves the note unchanged. -/
theorem imageChange_non_image_ignored_witness :
    onImageInputChange [⟨"text/plain", "data:xyz"⟩] ⟨1, "c", 0, 0, .valid 5, "old"⟩
      = (⟨1, "c", 0, 0, .valid 5, "old"⟩, false) :=
  (imageChange_non_image_ignored [⟨"text/plain", "data:xyz"⟩]
      ⟨1, "c", 0, 0, .valid 5, "old"⟩).1
    ⟨"text/plain", "data:xyz"⟩ rfl (by decide)

/-- C8: the bootstrap backfills every persisted record whose creation-time
field is absent with the current timestamp (a valid time value) before the
record becomes a `Note`, so every note the bootstrap adds to the manager has
a non-absent creation time.  (A record whose field is present but unparsable
is truthy in the JavaScript test and is kept as is; the claim only concerns
absent fields.) -/
theorem bootstrap_backfills_missing_timestamp (now : Int) (saved : List NoteRecord) :
    (∀ r : NoteRecord, r.timestamp = TsField.missing →
      (backfillTimestamp now r).timestamp = TsField.valid now) ∧
    (∀ n ∈ bootstrapLoad now saved, n.createdAt ≠ TsField.missing) := by
  constructor
  · intro r hr
    simp [backfillTimestamp, hr]
  · intro n hn
    unfold bootstrapLoad at hn
    obtain ⟨r, _, heq⟩ := List.mem_map.mp hn
    subst heq
    cases hcr : r.timestamp <;>
      simp [noteOfRecord, backfillTimestamp, hcr]

/-- Witness for C8: a record with an absent creation time is backfilled with
the bootstrap time 99, and the note built from it carries that time. -/
theorem bootstrap_backfills_missing_timestamp_witness :
    (backfillTimestamp 99 ⟨1, "c", 2, 3, TsField.missing, ""⟩).timestamp
      = TsField.valid 99 ∧
    (noteOfRecord (backfillTimestamp 99 ⟨1, "c", 2, 3, TsField.missing, ""⟩)).createdAt
      ≠ TsField.missing :=
  ⟨(bootstrap_backfills_missing_timestamp 99 [⟨1, "c", 2, 3, TsField.missing, ""⟩]).1
      ⟨1, "c", 2, 3, TsField.missing, ""⟩ rfl,
   (bootstrap_backfills_missing_timestamp 99 [⟨1, "c", 2, 3, TsField.missing, ""⟩]).2
      (noteOfRecord (backfillTimestamp 99 ⟨1, "c", 2, 3, TsField.missing, ""⟩))
      (by decide)⟩

end QuickNotes
